import Mathlib

/-!
# Verification of the pglock row-lock protocol

Shallow embedding of the core lock protocol of the `pglock` Go library:
`TryXLock`, `TrySLock`, `Unlock` (the per-row compare-and-set algorithms),
the blocking wrappers `XLock` / `SLock`, and the retry-interval default.

Modelling conventions:
* Timestamps (`time.Time`) are integers (seconds); `a.After(b)` becomes `b < a`.
  The several `time.Now()` calls inside one operation are conflated into a
  single `now` parameter: each operation runs inside one transaction and the
  claims are about states at transaction boundaries.
* The zero `time.Time` returned on the not-acquired paths is modelled as `0`.
* The stored JSONB `shared_locks` value is a `SharedBlob`: either well-formed
  (it unmarshals to a list of entries), the empty byte string (the Go code
  treats `len == 0` as the empty list), or corrupt (unmarshalling fails).
* A transaction rollback leaves the stored row unchanged, so every operation
  returns the (possibly rolled-back) row state together with its
  `Except`-style result; on the error and not-acquired paths the returned
  row is the input row.
* `sql.NullString` / `sql.NullTime` columns are `Option` values.
-/

namespace Pglock

/-- One entry of the JSONB `shared_locks` array (`SharedLockEntry` in Go). -/
structure SharedLockEntry where
  lockID : String
  expiresAt : Int
deriving DecidableEq, Repr

/-- The raw stored `shared_locks` column: well-formed JSON, the empty byte
string, or bytes that fail to unmarshal. -/
inductive SharedBlob where
  | wellFormed (entries : List SharedLockEntry)
  | emptyBytes
  | corrupt
deriving DecidableEq, Repr

/-- Mirrors the Go read pattern: `if len(sharedLocksJSON) > 0 { json.Unmarshal ... }`;
empty bytes give the empty list, a failed unmarshal is an error. -/
def parseSharedLocks : SharedBlob → Except String (List SharedLockEntry)
  | .wellFormed entries => .ok entries
  | .emptyBytes => .ok []
  | .corrupt => .error "failed to parse shared_locks"

/-- One row of the lock table (columns `xlock_id`, `x_expires_at`,
`shared_locks`, `max_shared_locks`; `name` is the key under which the row is
stored and is kept outside the row value). -/
structure LockRow where
  xlockID : Option String
  xExpiresAt : Option Int
  sharedLocks : SharedBlob
  maxSharedLocks : Int
deriving DecidableEq, Repr

/-- The exclusive-holder validity test used by `TryXLock` (line 119) and
`TrySLock` (line 323): `xlockID.Valid && xExpiresAt.Valid && xExpiresAt.Time.After(time.Now())`. -/
def xlockValid (row : LockRow) (now : Int) : Bool :=
  row.xlockID.isSome &&
    (match row.xExpiresAt with
     | some e => decide (now < e)
     | none => false)

/-- Result of `TryXLock` (Go `TryXLockResult`). -/
structure TryXLockResult where
  expiresAt : Int
  acquired : Bool
deriving DecidableEq, Repr

/-- Result of `TrySLock` (Go `TrySLockResult`). -/
structure TrySLockResult where
  expiresAt : Int
  acquired : Bool
deriving DecidableEq, Repr

/-- Result of `Unlock` (Go `UnlockResult`). -/
structure UnlockResult where
  released : Bool
deriving DecidableEq, Repr

/-- Go `TryXLock` (part_002 lines 57–160). The input is the current row for
`params.Name` (`none` when absent); the output is the committed (or rolled
back) row together with the call's result. -/
def tryXLock (row? : Option LockRow) (lockID : String) (ttlSeconds now : Int) :
    Option LockRow × Except String TryXLockResult :=
  let xExpiresFromParams : Int := now + ttlSeconds
  match row? with
  | none =>
    -- INSERT ... ON CONFLICT DO NOTHING created the row: immediate success.
    (some { xlockID := some lockID, xExpiresAt := some xExpiresFromParams,
            sharedLocks := .wellFormed [], maxSharedLocks := -1 },
     .ok { expiresAt := xExpiresFromParams, acquired := true })
  | some row =>
    if xlockValid row now then
      (some row, .ok { expiresAt := 0, acquired := false })
    else
      match parseSharedLocks row.sharedLocks with
      | .error e => (some row, .error e)
      | .ok sharedLocks =>
        if sharedLocks.any (fun l => decide (now < l.expiresAt)) then
          (some row, .ok { expiresAt := 0, acquired := false })
        else
          (some { row with xlockID := some lockID, xExpiresAt := some (now + ttlSeconds) },
           .ok { expiresAt := now + ttlSeconds, acquired := true })

/-- The renewal loop of `TrySLock` (lines 364–369): update the first entry
whose `LockID` matches, then `break`. -/
def renewFirst : List SharedLockEntry → String → Int → List SharedLockEntry
  | [], _, _ => []
  | l :: rest, lockID, e =>
    if l.lockID = lockID then { l with expiresAt := e } :: rest
    else l :: renewFirst rest lockID e

/-- Go `TrySLock` (part_002 lines 248–401). -/
def trySLock (row? : Option LockRow) (lockID : String)
    (ttlSeconds maxSharedLocksParam now : Int) :
    Option LockRow × Except String TrySLockResult :=
  let newExpiresAt : Int := now + ttlSeconds
  match row? with
  | none =>
    -- INSERT with shared_locks = [newLockEntry], max_shared_locks = params.
    (some { xlockID := none, xExpiresAt := none,
            sharedLocks := .wellFormed [{ lockID := lockID, expiresAt := newExpiresAt }],
            maxSharedLocks := maxSharedLocksParam },
     .ok { expiresAt := newExpiresAt, acquired := true })
  | some row =>
    if xlockValid row now then
      (some row, .ok { expiresAt := 0, acquired := false })
    else
      match parseSharedLocks row.sharedLocks with
      | .error e => (some row, .error e)
      | .ok sharedLocks =>
        let validLocks := sharedLocks.filter (fun l => decide (now < l.expiresAt))
        let alreadyHasLock := validLocks.any (fun l => l.lockID == lockID)
        if alreadyHasLock = false ∧ row.maxSharedLocks ≠ -1 ∧
            row.maxSharedLocks ≤ (validLocks.length : Int) then
          (some row, .ok { expiresAt := 0, acquired := false })
        else
          let newValidLocks :=
            if alreadyHasLock then renewFirst validLocks lockID newExpiresAt
            else validLocks ++ [{ lockID := lockID, expiresAt := newExpiresAt }]
          (some { row with sharedLocks := .wellFormed newValidLocks },
           .ok { expiresAt := newExpiresAt, acquired := true })

/-- Go `Unlock` (part_002 lines 436–524). On a parse failure the deferred
rollback undoes the already-issued exclusive-clear UPDATE, so the returned
row is the input row. -/
def unlock (row? : Option LockRow) (lockID : String) :
    Option LockRow × Except String UnlockResult :=
  match row? with
  | none => (none, .ok { released := false })
  | some row =>
    let xMatch : Bool := row.xlockID == some lockID
    let row1 := if xMatch then { row with xlockID := none, xExpiresAt := none } else row
    match parseSharedLocks row.sharedLocks with
    | .error e => (some row, .error e)
    | .ok sharedLocks =>
      let newSharedLocks := sharedLocks.filter (fun l => l.lockID != lockID)
      let sReleased : Bool := newSharedLocks.length != sharedLocks.length
      let row2 := if newSharedLocks.length ≠ sharedLocks.length
                  then { row1 with sharedLocks := .wellFormed newSharedLocks }
                  else row1
      (some row2, .ok { released := xMatch || sReleased })

/-! ## Blocking wrappers and retry interval -/

/-- Go `DefaultRetryInterval = 100 * time.Millisecond` (part_002 line 13), in
nanoseconds, the unit of Go `time.Duration`. -/
def DefaultRetryInterval : Int := 100 * 1000000

/-- Lines 176–178: `if params.IntervalDuration <= 0 { params.IntervalDuration = DefaultRetryInterval }`. -/
def xLockEffectiveInterval (intervalDuration : Int) : Int :=
  if intervalDuration ≤ 0 then DefaultRetryInterval else intervalDuration

/-- Lines 406–408: the identical interval adjustment inside `SLock`. -/
def sLockEffectiveInterval (intervalDuration : Int) : Int :=
  if intervalDuration ≤ 0 then DefaultRetryInterval else intervalDuration

/-- Outcome of one `TryXLock` / `TrySLock` call as seen by the retry loop. -/
inductive TryOutcome where
  | storeFailure (msg : String)
  | acquiredNow (expiresAt : Int)
  | notAcquired
deriving DecidableEq, Repr

/-- Outcome of the `select` between `ctx.Done()` and `time.After(interval)`
(lines 194–199 / 425–430). -/
inductive WaitOutcome where
  | ctxDone (msg : String)
  | intervalElapsed
deriving DecidableEq, Repr

/-- What a blocking wrapper call returns. -/
inductive BlockingOutcome where
  | success (expiresAt : Int)
  | storeError (msg : String)
  | ctxError (msg : String)
deriving DecidableEq, Repr

/-- The `XLock` retry loop (lines 180–200) over a finite trace of iteration
events; `none` means the trace ended with the loop still running. Each
iteration consults its `WaitOutcome` only after a not-acquired result. -/
def xLockLoop : List (TryOutcome × WaitOutcome) → Option BlockingOutcome
  | [] => none
  | (t, w) :: rest =>
    match t with
    | .storeFailure e => some (.storeError e)
    | .acquiredNow x => some (.success x)
    | .notAcquired =>
      match w with
      | .ctxDone e => some (.ctxError e)
      | .intervalElapsed => xLockLoop rest

/-- The `SLock` retry loop (lines 410–431), identical in shape to `XLock`. -/
def sLockLoop : List (TryOutcome × WaitOutcome) → Option BlockingOutcome
  | [] => none
  | (t, w) :: rest =>
    match t with
    | .storeFailure e => some (.storeError e)
    | .acquiredNow x => some (.success x)
    | .notAcquired =>
      match w with
      | .ctxDone e => some (.ctxError e)
      | .intervalElapsed => sLockLoop rest

/-! ## Operation traces and the row invariant -/

/-- One operation applied to a single lock name. -/
inductive LockOp where
  | tryX (lockID : String) (ttl : Int)
  | tryS (lockID : String) (ttl : Int) (maxS : Int)
  | unl (lockID : String)
deriving DecidableEq, Repr

/-- The row state after one operation commits or rolls back. -/
def applyOp (row? : Option LockRow) (op : LockOp) (now : Int) : Option LockRow :=
  match op with
  | .tryX lockID ttl => (tryXLock row? lockID ttl now).1
  | .tryS lockID ttl maxS => (trySLock row? lockID ttl maxS now).1
  | .unl lockID => (unlock row? lockID).1

/-- Run a trace of timestamped operations. -/
def runOps (row? : Option LockRow) : List (LockOp × Int) → Option LockRow
  | [] => row?
  | (op, t) :: rest => runOps (applyOp row? op t) rest

/-- The stored shared-lock entries of a row (the empty list when the blob is
not well-formed JSON). -/
def entriesOf (row : LockRow) : List SharedLockEntry :=
  match row.sharedLocks with
  | .wellFormed entries => entries
  | _ => []

/-- The unexpired shared entries of a row at time `now`. -/
def validEntries (row : LockRow) (now : Int) : List SharedLockEntry :=
  (entriesOf row).filter (fun l => decide (now < l.expiresAt))

/-- The valid exclusive holders of a row at time `now` (at most a singleton
by construction of the schema). -/
def validXHolders (row : LockRow) (now : Int) : List String :=
  match row.xlockID with
  | some holder => if xlockValid row now then [holder] else []
  | none => []

/-- The row-state invariant claimed by the spec, at time `now`: at most one
valid exclusive holder; no valid exclusive holder coexists with a valid
shared entry; the distinct lock IDs among valid shared entries stay within
the stored `max_shared_locks` unless that value is `-1`. -/
def lockRowInvariant (row? : Option LockRow) (now : Int) : Bool :=
  match row? with
  | none => true
  | some row =>
    decide ((validXHolders row now).length ≤ 1) &&
    (!(xlockValid row now) || (validEntries row now).isEmpty) &&
    (row.maxSharedLocks == -1 ||
      decide ((((validEntries row now).map (fun l => l.lockID)).dedup.length : Int) ≤
        row.maxSharedLocks))

/-- The stronger, inductively preserved invariant: the stored blob is
well-formed, validity of the exclusive holder excludes valid shared entries,
and the plain count of valid entries respects the stored capacity. -/
def strongInv (row? : Option LockRow) (now : Int) : Prop :=
  match row? with
  | none => True
  | some row =>
    (∃ entries, row.sharedLocks = SharedBlob.wellFormed entries) ∧
    (xlockValid row now = true → validEntries row now = []) ∧
    (row.maxSharedLocks ≠ -1 → ((validEntries row now).length : Int) ≤ row.maxSharedLocks)

/-- Timestamps along a trace are non-decreasing and start no earlier than
`now` (Bool-valued so concrete traces can be checked by `decide`). -/
def chainFrom (now : Int) : List (LockOp × Int) → Bool
  | [] => true
  | (_, t) :: rest => decide (now ≤ t) && chainFrom t rest

/-- Every timestamp in the trace is at most `t`. -/
def timesLE (ops : List (LockOp × Int)) (t : Int) : Bool :=
  ops.all (fun p => decide (p.2 ≤ t))

/-- A `TrySLock` call with a capacity that is `-1` or at least `1`; other
operations are unconstrained. -/
def goodOp : LockOp → Bool
  | .tryS _ _ maxS => maxS == -1 || decide (1 ≤ maxS)
  | _ => true

/-- Every `TrySLock` in the trace supplies a capacity of `-1` or at least `1`. -/
def goodTrace (ops : List (LockOp × Int)) : Bool :=
  ops.all (fun p => goodOp p.1)

/-- The expiry recorded for the first stored entry whose ID matches. -/
def firstExpiryFor (entries : List SharedLockEntry) (lockID : String) : Option Int :=
  (entries.find? (fun l => l.lockID == lockID)).map (fun l => l.expiresAt)

/-- The unexpired entries of a parsed shared-lock list (the `validLocks`
filter of `TrySLock`, line 337–349). -/
def validOf (entries : List SharedLockEntry) (now : Int) : List SharedLockEntry :=
  entries.filter (fun l => decide (now < l.expiresAt))

/-! ## Helper lemmas -/

theorem renewFirst_length (entries : List SharedLockEntry) (lockID : String) (e : Int) :
    (renewFirst entries lockID e).length = entries.length := by
  induction entries with
  | nil => rfl
  | cons l rest ih =>
    simp only [renewFirst]
    split <;> simp [ih]

theorem firstExpiryFor_renewFirst (entries : List SharedLockEntry) (lockID : String) (e : Int)
    (h : entries.any (fun l => l.lockID == lockID) = true) :
    firstExpiryFor (renewFirst entries lockID e) lockID = some e := by
  induction entries with
  | nil => simp at h
  | cons l rest ih =>
    by_cases hl : l.lockID = lockID
    · simp [renewFirst, hl, firstExpiryFor, List.find?]
    · have hb : (l.lockID == lockID) = false := by simp [hl]
      simp only [renewFirst, if_neg hl]
      have hrest : rest.any (fun l => l.lockID == lockID) = true := by
        simp only [List.any_cons, hb, Bool.false_or] at h
        exact h
      have := ih hrest
      simpa [firstExpiryFor, List.find?, hb] using this

theorem filter_ne_length_iff_any (entries : List SharedLockEntry) (lockID : String) :
    ((entries.filter (fun l => l.lockID != lockID)).length ≠ entries.length) ↔
      entries.any (fun l => l.lockID == lockID) = true := by
  constructor
  · intro h
    by_contra hany
    rw [Bool.not_eq_true] at hany
    apply h
    rw [List.filter_length_eq_length]
    intro a ha
    have := List.any_eq_false.mp hany a ha
    simp only [bne_iff_ne, ne_eq]
    intro hcontra
    exact this (by simp [hcontra])
  · intro hany h
    obtain ⟨x, hx, hpx⟩ := List.any_eq_true.mp hany
    have hkeep := List.filter_length_eq_length.mp h x hx
    rw [bne_iff_ne] at hkeep
    exact hkeep (by simpa using hpx)

/-! ## Claim theorems -/

/-- C2: `TryXLock(name, lockID, ttl)` — on an absent row it creates the row
with exclusive holder `(lockID, now+ttl)` and acquires; on an existing row it
fails whenever the exclusive lease is unexpired (for every stored holder ID,
hence also when it equals `lockID`: no re-entrant short-circuit) or whenever
some shared entry is unexpired; otherwise it sets the exclusive holder to
`(lockID, now+ttl)` and acquires with the new expiry. -/
theorem tryXLock_contract (lockID : String) (ttl now : Int) :
    (tryXLock none lockID ttl now =
      (some { xlockID := some lockID, xExpiresAt := some (now + ttl),
              sharedLocks := SharedBlob.wellFormed [], maxSharedLocks := -1 },
       Except.ok { expiresAt := now + ttl, acquired := true })) ∧
    (∀ row : LockRow, xlockValid row now = true →
      tryXLock (some row) lockID ttl now =
        (some row, Except.ok { expiresAt := 0, acquired := false })) ∧
    (∀ (row : LockRow) (entries : List SharedLockEntry),
      xlockValid row now = false →
      parseSharedLocks row.sharedLocks = Except.ok entries →
      entries.any (fun l => decide (now < l.expiresAt)) = true →
      tryXLock (some row) lockID ttl now =
        (some row, Except.ok { expiresAt := 0, acquired := false })) ∧
    (∀ (row : LockRow) (entries : List SharedLockEntry),
      xlockValid row now = false →
      parseSharedLocks row.sharedLocks = Except.ok entries →
      entries.any (fun l => decide (now < l.expiresAt)) = false →
      tryXLock (some row) lockID ttl now =
        (some { row with xlockID := some lockID, xExpiresAt := some (now + ttl) },
         Except.ok { expiresAt := now + ttl, acquired := true })) := by
  refine ⟨rfl, ?_, ?_, ?_⟩
  · intro row hx
    simp [tryXLock, hx]
  · intro row entries hx hp hs
    simp [tryXLock, hx, hp, hs]
  · intro row entries hx hp hs
    simp [tryXLock, hx, hp, hs]

/-- A row holding a valid exclusive lock for "x" at times before 40. -/
def sampleRowX : LockRow :=
  { xlockID := some "x", xExpiresAt := some 40,
    sharedLocks := SharedBlob.wellFormed [], maxSharedLocks := -1 }

/-- A row with one shared entry for "s" expiring at 50, no exclusive holder. -/
def sampleRowS : LockRow :=
  { xlockID := none, xExpiresAt := none,
    sharedLocks := SharedBlob.wellFormed [{ lockID := "s", expiresAt := 50 }],
    maxSharedLocks := -1 }

/-- A row whose exclusive lease for "y" and shared entry for "s" are both
expired by time 10. -/
def sampleRowExpired : LockRow :=
  { xlockID := some "y", xExpiresAt := some 5,
    sharedLocks := SharedBlob.wellFormed [{ lockID := "s", expiresAt := 7 }],
    maxSharedLocks := -1 }

/-- Witness for C2 at concrete inputs: re-entrant attempt on a valid lease
fails, a valid shared entry blocks, and an all-expired row is taken over. -/
theorem tryXLock_contract_witness :
    (tryXLock (some sampleRowX) "x" 30 10 =
      (some sampleRowX, Except.ok { expiresAt := 0, acquired := false })) ∧
    (tryXLock (some sampleRowS) "x" 30 10 =
      (some sampleRowS, Except.ok { expiresAt := 0, acquired := false })) ∧
    (tryXLock (some sampleRowExpired) "x" 30 10 =
      (some { sampleRowExpired with xlockID := some "x", xExpiresAt := some 40 },
       Except.ok { expiresAt := 40, acquired := true })) :=
  ⟨(tryXLock_contract "x" 30 10).2.1 _ (by decide),
   (tryXLock_contract "x" 30 10).2.2.1 _ [{ lockID := "s", expiresAt := 50 }]
     (by decide) rfl (by decide),
   (tryXLock_contract "x" 30 10).2.2.2 _ [{ lockID := "s", expiresAt := 7 }]
     (by decide) rfl (by decide)⟩

/-- C3: `TrySLock` on an existing row with no valid exclusive holder — a
caller already holding a valid shared entry always acquires (renewal, no
capacity check for any stored capacity); a caller without one acquires iff
the row's stored capacity is `-1` or the count of valid entries is below it,
and otherwise the call returns acquired=false with the row unchanged. -/
theorem trySLock_existing_contract (row : LockRow) (lockID : String)
    (ttl maxParam now : Int) (entries : List SharedLockEntry)
    (hx : xlockValid row now = false)
    (hp : parseSharedLocks row.sharedLocks = Except.ok entries) :
    ((validOf entries now).any (fun l => l.lockID == lockID) = true →
      trySLock (some row) lockID ttl maxParam now =
        (some { row with sharedLocks := SharedBlob.wellFormed (renewFirst (validOf entries now) lockID (now + ttl)) },
         Except.ok { expiresAt := now + ttl, acquired := true })) ∧
    ((validOf entries now).any (fun l => l.lockID == lockID) = false →
      ((row.maxSharedLocks = -1 ∨
          ((validOf entries now).length : Int) < row.maxSharedLocks) →
        trySLock (some row) lockID ttl maxParam now =
          (some { row with sharedLocks := SharedBlob.wellFormed ((validOf entries now) ++ [{ lockID := lockID, expiresAt := now + ttl }]) },
           Except.ok { expiresAt := now + ttl, acquired := true })) ∧
      (row.maxSharedLocks ≠ -1 →
        row.maxSharedLocks ≤ ((validOf entries now).length : Int) →
        trySLock (some row) lockID ttl maxParam now =
          (some row, Except.ok { expiresAt := 0, acquired := false }))) := by
  constructor
  · intro ha
    simp only [validOf] at ha
    simp [trySLock, hx, hp, ha, validOf]
  · intro ha
    simp only [validOf] at ha
    constructor
    · intro hroom
      simp only [validOf] at hroom
      rcases hroom with h1 | h1
      · simp [trySLock, hx, hp, ha, h1, validOf]
      · have h2 : ¬ row.maxSharedLocks ≤
            ((entries.filter (fun l => decide (now < l.expiresAt))).length : Int) := by
          omega
        simp [trySLock, hx, hp, ha, h2, validOf]
    · intro hmax hlen
      simp only [validOf] at hlen
      simp [trySLock, hx, hp, ha, hmax, hlen]

/-- A row with stored capacity 2 and one valid shared entry for "a" at
times before 50. -/
def sampleRowCap2 : LockRow :=
  { xlockID := none, xExpiresAt := none,
    sharedLocks := SharedBlob.wellFormed [{ lockID := "a", expiresAt := 50 }],
    maxSharedLocks := 2 }

/-- A row with stored capacity 1 already filled by a valid entry for "a". -/
def sampleRowCap1 : LockRow :=
  { xlockID := none, xExpiresAt := none,
    sharedLocks := SharedBlob.wellFormed [{ lockID := "a", expiresAt := 50 }],
    maxSharedLocks := 1 }

/-- Witness for C3 at concrete inputs: renewal succeeds on a full row, a new
claimant succeeds below capacity and fails at capacity. -/
theorem trySLock_existing_contract_witness :
    (trySLock (some sampleRowCap1) "a" 20 9 10 =
      (some { sampleRowCap1 with sharedLocks := SharedBlob.wellFormed [{ lockID := "a", expiresAt := 30 }] },
       Except.ok { expiresAt := 30, acquired := true })) ∧
    (trySLock (some sampleRowCap2) "b" 20 9 10 =
      (some { sampleRowCap2 with sharedLocks := SharedBlob.wellFormed [{ lockID := "a", expiresAt := 50 }, { lockID := "b", expiresAt := 30 }] },
       Except.ok { expiresAt := 30, acquired := true })) ∧
    (trySLock (some sampleRowCap1) "b" 20 9 10 =
      (some sampleRowCap1, Except.ok { expiresAt := 0, acquired := false })) :=
  ⟨(trySLock_existing_contract sampleRowCap1 "a" 20 9 10
      [{ lockID := "a", expiresAt := 50 }] (by decide) rfl).1 (by decide),
   ((trySLock_existing_contract sampleRowCap2 "b" 20 9 10
      [{ lockID := "a", expiresAt := 50 }] (by decide) rfl).2 (by decide)).1
      (Or.inr (by decide)),
   ((trySLock_existing_contract sampleRowCap1 "b" 20 9 10
      [{ lockID := "a", expiresAt := 50 }] (by decide) rfl).2 (by decide)).2
      (by decide) (by decide)⟩

/-- C4 counterexample: renewal with a TTL shorter than the remaining lease
moves the holder's expiry backwards. At time 10 holder "s" has stored expiry
50; renewing with ttl=5 succeeds and stores expiry 15 < 50, so the claim
that a renewal's new leaseExpiry is never earlier than its previous expiry
for every TTL fails. -/
theorem trySLock_renewal_shortens :
    trySLock (some sampleRowS) "s" 5 (-1) 10 =
      (some { sampleRowS with sharedLocks := SharedBlob.wellFormed [{ lockID := "s", expiresAt := 15 }] },
       Except.ok { expiresAt := 15, acquired := true }) ∧
    firstExpiryFor (entriesOf sampleRowS) "s" = some 50 ∧ (15 : Int) < 50 :=
  ⟨rfl, rfl, by decide⟩

/-- C4 amended: a successful `TrySLock` renewal reschedules the holder's
entry to expire at exactly `now + ttl` — extending relative to the renewal
time, but possibly earlier than the previous expiry when the TTL is shorter
than the remaining lease. -/
theorem trySLock_renewal_expiry (row : LockRow) (lockID : String)
    (ttl maxParam now : Int) (entries : List SharedLockEntry)
    (hx : xlockValid row now = false)
    (hp : parseSharedLocks row.sharedLocks = Except.ok entries)
    (ha : (validOf entries now).any (fun l => l.lockID == lockID) = true) :
    (trySLock (some row) lockID ttl maxParam now).2 =
      Except.ok { expiresAt := now + ttl, acquired := true } ∧
    ∃ row2, (trySLock (some row) lockID ttl maxParam now).1 = some row2 ∧
      firstExpiryFor (entriesOf row2) lockID = some (now + ttl) := by
  simp only [validOf] at ha
  refine ⟨by simp [trySLock, hx, hp, ha], ?_⟩
  refine ⟨{ row with sharedLocks := SharedBlob.wellFormed (renewFirst (entries.filter (fun l => decide (now < l.expiresAt))) lockID (now + ttl)) }, ?_, ?_⟩
  · simp [trySLock, hx, hp, ha]
  · simpa [entriesOf] using
      firstExpiryFor_renewFirst (entries.filter (fun l => decide (now < l.expiresAt)))
        lockID (now + ttl) ha

/-- Witness for the amended C4: holder "s" renews with a longer TTL and the
stored expiry becomes exactly 10 + 25 = 35. -/
theorem trySLock_renewal_expiry_witness :
    (trySLock (some sampleRowS) "s" 25 (-1) 10).2 =
      Except.ok { expiresAt := 35, acquired := true } ∧
    ∃ row2, (trySLock (some sampleRowS) "s" 25 (-1) 10).1 = some row2 ∧
      firstExpiryFor (entriesOf row2) "s" = some 35 :=
  trySLock_renewal_expiry sampleRowS "s" 25 (-1) 10
    [{ lockID := "s", expiresAt := 50 }] (by decide) rfl (by decide)

/-- Full characterization of `Unlock` on an existing, parseable row. -/
theorem unlock_eq (row : LockRow) (lockID : String) (entries : List SharedLockEntry)
    (hp : parseSharedLocks row.sharedLocks = Except.ok entries) :
    unlock (some row) lockID =
      (some { xlockID := if row.xlockID == some lockID then none else row.xlockID,
              xExpiresAt := if row.xlockID == some lockID then none else row.xExpiresAt,
              sharedLocks := if entries.any (fun l => l.lockID == lockID) then SharedBlob.wellFormed (entries.filter (fun l => l.lockID != lockID)) else row.sharedLocks,
              maxSharedLocks := row.maxSharedLocks },
       Except.ok { released := (row.xlockID == some lockID) || entries.any (fun l => l.lockID == lockID) }) := by
  have hlen := filter_ne_length_iff_any entries lockID
  by_cases hany : entries.any (fun l => l.lockID == lockID) = true
  · have hne : (entries.filter (fun l => l.lockID != lockID)).length ≠ entries.length :=
      hlen.mpr hany
    by_cases hxm : (row.xlockID == some lockID) = true
    · simp [unlock, hp, hxm, hany, hne]
    · simp only [Bool.not_eq_true] at hxm
      simp [unlock, hp, hxm, hany, hne]
  · simp only [Bool.not_eq_true] at hany
    have heq : (entries.filter (fun l => l.lockID != lockID)).length = entries.length := by
      by_contra hcontra
      have := hlen.mp hcontra
      simp [this] at hany
    by_cases hxm : (row.xlockID == some lockID) = true
    · simp [unlock, hp, hxm, hany, heq]
    · simp only [Bool.not_eq_true] at hxm
      simp [unlock, hp, hxm, hany, heq]

/-- A parseable blob's entries are exactly `entriesOf`. -/
theorem entriesOf_parse (row : LockRow) (entries : List SharedLockEntry)
    (hp : parseSharedLocks row.sharedLocks = Except.ok entries) :
    entriesOf row = entries := by
  cases hb : row.sharedLocks <;> rw [hb] at hp <;>
    simp only [parseSharedLocks, Except.ok.injEq] at hp <;>
    simp [entriesOf, hb, hp]
  cases hp

/-- C5: `Unlock(name, lockID)` — an absent row yields released=false with no
error; on an existing row the exclusive holder is cleared iff the stored
exclusive ID equals `lockID` (with no expiry test), every shared entry whose
ID equals `lockID` is removed, and released=true iff at least one of those
two removals occurred (a caller holding neither kind of claim gets
released=false). -/
theorem unlock_contract (lockID : String) :
    (unlock none lockID = (none, Except.ok { released := false })) ∧
    (∀ (row : LockRow) (entries : List SharedLockEntry),
      parseSharedLocks row.sharedLocks = Except.ok entries →
      unlock (some row) lockID =
        (some { xlockID := if row.xlockID == some lockID then none else row.xlockID,
                xExpiresAt := if row.xlockID == some lockID then none else row.xExpiresAt,
                sharedLocks := if entries.any (fun l => l.lockID == lockID) then SharedBlob.wellFormed (entries.filter (fun l => l.lockID != lockID)) else row.sharedLocks,
                maxSharedLocks := row.maxSharedLocks },
         Except.ok { released := (row.xlockID == some lockID) || entries.any (fun l => l.lockID == lockID) })) :=
  ⟨rfl, fun row entries hp => unlock_eq row lockID entries hp⟩

/-- A row whose exclusive lease for "x" is expired and whose shared set
holds an expired entry for "x" and a live entry for "b". -/
def sampleRowMixed : LockRow :=
  { xlockID := some "x", xExpiresAt := some 5,
    sharedLocks := SharedBlob.wellFormed [{ lockID := "x", expiresAt := 3 }, { lockID := "b", expiresAt := 100 }],
    maxSharedLocks := 3 }

/-- Witness for C5: unlocking "x" clears the expired exclusive holder and
drops the expired shared entry for "x" (released=true); unlocking "z",
which holds nothing, changes nothing and yields released=false. -/
theorem unlock_contract_witness :
    (unlock (some sampleRowMixed) "x" =
      (some { xlockID := none, xExpiresAt := none,
              sharedLocks := SharedBlob.wellFormed [{ lockID := "b", expiresAt := 100 }],
              maxSharedLocks := 3 },
       Except.ok { released := true })) ∧
    (unlock (some sampleRowMixed) "z" =
      (some sampleRowMixed, Except.ok { released := false })) ∧
    (unlock none "x" = (none, Except.ok { released := false })) := by
  refine ⟨?_, ?_, (unlock_contract "x").1⟩
  · have h := (unlock_contract "x").2 sampleRowMixed
      [{ lockID := "x", expiresAt := 3 }, { lockID := "b", expiresAt := 100 }] rfl
    rw [h]
    rfl
  · have h := (unlock_contract "z").2 sampleRowMixed
      [{ lockID := "x", expiresAt := 3 }, { lockID := "b", expiresAt := 100 }] rfl
    rw [h]
    rfl

/-- C10: `Unlock` removes every shared entry whose ID equals the given ID —
expired ones included — keeps every other shared entry verbatim (expired
entries of other holders are not cleaned up), never touches the stored
capacity, and leaves an exclusive holder with a different ID in place even
when its lease has expired. -/
theorem unlock_no_cleanup (row : LockRow) (lockID : String)
    (entries : List SharedLockEntry)
    (hp : parseSharedLocks row.sharedLocks = Except.ok entries) :
    ∃ row2, (unlock (some row) lockID).1 = some row2 ∧
      entriesOf row2 = entries.filter (fun l => l.lockID != lockID) ∧
      row2.maxSharedLocks = row.maxSharedLocks ∧
      (row.xlockID ≠ some lockID →
        row2.xlockID = row.xlockID ∧ row2.xExpiresAt = row.xExpiresAt) := by
  have h := unlock_eq row lockID entries hp
  by_cases hany : entries.any (fun l => l.lockID == lockID) = true
  · refine ⟨{ xlockID := if (row.xlockID == some lockID) = true then none else row.xlockID, xExpiresAt := if (row.xlockID == some lockID) = true then none else row.xExpiresAt, sharedLocks := SharedBlob.wellFormed (entries.filter (fun l => l.lockID != lockID)), maxSharedLocks := row.maxSharedLocks }, ?_, ?_, rfl, ?_⟩
    · rw [h]
      simp [hany]
    · simp [entriesOf]
    · intro hne
      have hxm : (row.xlockID == some lockID) = false := by
        simp only [beq_eq_false_iff_ne, ne_eq]
        exact hne
      simp [hxm]
  · simp only [Bool.not_eq_true] at hany
    have hall : ∀ a ∈ entries, (a.lockID != lockID) = true := by
      intro a hamem
      have hbeq := List.any_eq_false.mp hany a hamem
      simp only [bne_iff_ne, ne_eq]
      intro hcontra
      exact hbeq (by simp [hcontra])
    have hfilter : entries.filter (fun l => l.lockID != lockID) = entries :=
      List.filter_eq_self.mpr hall
    refine ⟨{ xlockID := if (row.xlockID == some lockID) = true then none else row.xlockID, xExpiresAt := if (row.xlockID == some lockID) = true then none else row.xExpiresAt, sharedLocks := row.sharedLocks, maxSharedLocks := row.maxSharedLocks }, ?_, ?_, rfl, ?_⟩
    · rw [h]
      simp [hany]
    · rw [hfilter]
      exact entriesOf_parse row entries hp
    · intro hne
      have hxm : (row.xlockID == some lockID) = false := by
        simp only [beq_eq_false_iff_ne, ne_eq]
        exact hne
      simp [hxm]

/-- Witness for C10 on a concrete row: both entries for "a" (one expired)
are removed, the expired entry of "b" and the expired exclusive holder "y"
stay in place. -/
theorem unlock_no_cleanup_witness :
    ∃ row2,
      (unlock (some { xlockID := some "y", xExpiresAt := some 5, sharedLocks := SharedBlob.wellFormed [{ lockID := "a", expiresAt := 3 }, { lockID := "b", expiresAt := 4 }, { lockID := "a", expiresAt := 100 }], maxSharedLocks := -1 }) "a").1 = some row2 ∧
      entriesOf row2 = [{ lockID := "b", expiresAt := 4 }] ∧
      row2.maxSharedLocks = -1 ∧
      (some "y" ≠ (some "a" : Option String) →
        row2.xlockID = some "y" ∧ row2.xExpiresAt = some 5) := by
  have h := unlock_no_cleanup
    { xlockID := some "y", xExpiresAt := some 5, sharedLocks := SharedBlob.wellFormed [{ lockID := "a", expiresAt := 3 }, { lockID := "b", expiresAt := 4 }, { lockID := "a", expiresAt := 100 }], maxSharedLocks := -1 }
    "a" [{ lockID := "a", expiresAt := 3 }, { lockID := "b", expiresAt := 4 }, { lockID := "a", expiresAt := 100 }] rfl
  simpa using h

/-- An error result of `tryXLock` leaves the row unchanged. -/
theorem tryXLock_error_frame (row? : Option LockRow) (lockID : String)
    (ttl now : Int) (e : String)
    (h : (tryXLock row? lockID ttl now).2 = Except.error e) :
    (tryXLock row? lockID ttl now).1 = row? := by
  rcases row? with _ | row
  · simp [tryXLock] at h
  · by_cases hx : xlockValid row now
    · simp [tryXLock, hx]
    · cases hb : row.sharedLocks with
      | wellFormed es =>
        by_cases hs : es.any (fun l => decide (now < l.expiresAt)) = true
        · simp [tryXLock, hx, hb, parseSharedLocks, hs]
        · simp only [Bool.not_eq_true] at hs
          simp [tryXLock, hx, hb, parseSharedLocks, hs] at h
      | emptyBytes =>
        simp [tryXLock, hx, hb, parseSharedLocks] at h
      | corrupt =>
        simp [tryXLock, hx, hb, parseSharedLocks]

/-- An error result of `trySLock` leaves the row unchanged. -/
theorem trySLock_error_frame (row? : Option LockRow) (lockID : String)
    (ttl maxParam now : Int) (e : String)
    (h : (trySLock row? lockID ttl maxParam now).2 = Except.error e) :
    (trySLock row? lockID ttl maxParam now).1 = row? := by
  rcases row? with _ | row
  · simp [trySLock] at h
  · by_cases hx : xlockValid row now
    · simp [trySLock, hx]
    · cases hb : row.sharedLocks with
      | wellFormed es =>
        simp only [trySLock, hx, hb, parseSharedLocks, Bool.false_eq_true, if_false] at h
        split at h <;> simp at h
      | emptyBytes =>
        simp only [trySLock, hx, hb, parseSharedLocks, Bool.false_eq_true, if_false] at h
        split at h <;> simp at h
      | corrupt =>
        simp [trySLock, hx, hb, parseSharedLocks]

/-- An error result of `unlock` leaves the row unchanged. -/
theorem unlock_error_frame (row? : Option LockRow) (lockID : String) (e : String)
    (h : (unlock row? lockID).2 = Except.error e) :
    (unlock row? lockID).1 = row? := by
  rcases row? with _ | row
  · simp [unlock] at h
  · cases hb : row.sharedLocks with
    | wellFormed es =>
      simp only [unlock, hb, parseSharedLocks] at h
      simp at h
    | emptyBytes =>
      simp only [unlock, hb, parseSharedLocks] at h
      simp at h
    | corrupt =>
      simp [unlock, hb, parseSharedLocks]

/-- C7: a corrupt stored shared-lock set makes the operation that reads it
(`TryXLock` and `TrySLock` read it once no valid exclusive lease shortcuts
them; `Unlock` always reads it) return a parse error with the row exactly as
it was — reported, never rewritten; and in general every error result of the
three operations leaves the row unchanged (the transaction rolls back). -/
theorem corrupt_shared_reported_not_repaired (row : LockRow) (lockID : String)
    (ttl maxParam now : Int) :
    (row.sharedLocks = SharedBlob.corrupt →
      (xlockValid row now = false →
        tryXLock (some row) lockID ttl now =
          (some row, Except.error "failed to parse shared_locks")) ∧
      (xlockValid row now = false →
        trySLock (some row) lockID ttl maxParam now =
          (some row, Except.error "failed to parse shared_locks")) ∧
      unlock (some row) lockID =
        (some row, Except.error "failed to parse shared_locks")) ∧
    (∀ (row? : Option LockRow) (e : String),
      ((tryXLock row? lockID ttl now).2 = Except.error e →
        (tryXLock row? lockID ttl now).1 = row?) ∧
      ((trySLock row? lockID ttl maxParam now).2 = Except.error e →
        (trySLock row? lockID ttl maxParam now).1 = row?) ∧
      ((unlock row? lockID).2 = Except.error e →
        (unlock row? lockID).1 = row?)) := by
  refine ⟨fun hc => ⟨fun hx => ?_, fun hx => ?_, ?_⟩, fun row? e => ⟨?_, ?_, ?_⟩⟩
  · simp [tryXLock, hx, hc, parseSharedLocks]
  · simp [trySLock, hx, hc, parseSharedLocks]
  · simp [unlock, hc, parseSharedLocks]
  · exact tryXLock_error_frame row? lockID ttl now e
  · exact trySLock_error_frame row? lockID ttl maxParam now e
  · exact unlock_error_frame row? lockID e

/-- A row whose stored shared-lock set is unparseable. -/
def corruptRow : LockRow :=
  { xlockID := none, xExpiresAt := none, sharedLocks := SharedBlob.corrupt,
    maxSharedLocks := -1 }

/-- Witness for C7: all three operations report the parse error on a
concrete corrupt row and leave it unchanged. -/
theorem corrupt_shared_reported_not_repaired_witness :
    (tryXLock (some corruptRow) "x" 30 10 =
      (some corruptRow, Except.error "failed to parse shared_locks")) ∧
    (trySLock (some corruptRow) "x" 30 5 10 =
      (some corruptRow, Except.error "failed to parse shared_locks")) ∧
    (unlock (some corruptRow) "x" =
      (some corruptRow, Except.error "failed to parse shared_locks")) :=
  ⟨((corrupt_shared_reported_not_repaired corruptRow "x" 30 5 10).1 rfl).1 (by decide),
   ((corrupt_shared_reported_not_repaired corruptRow "x" 30 5 10).1 rfl).2.1 (by decide),
   ((corrupt_shared_reported_not_repaired corruptRow "x" 30 5 10).1 rfl).2.2⟩

/-- C6: the blocking wrappers return the underlying error immediately on a
store failure (no retry), return immediately on acquisition, and when the
context is cancelled during the inter-attempt wait they return a context
error — a constructor distinct from both store errors and success, so no
lock is acquired; after an uneventful wait the loop simply continues. -/
theorem blocking_wrapper_contract (e msg : String) (x : Int) (w : WaitOutcome)
    (rest : List (TryOutcome × WaitOutcome)) :
    (xLockLoop ((TryOutcome.storeFailure e, w) :: rest) =
      some (BlockingOutcome.storeError e)) ∧
    (sLockLoop ((TryOutcome.storeFailure e, w) :: rest) =
      some (BlockingOutcome.storeError e)) ∧
    (xLockLoop ((TryOutcome.acquiredNow x, w) :: rest) =
      some (BlockingOutcome.success x)) ∧
    (sLockLoop ((TryOutcome.acquiredNow x, w) :: rest) =
      some (BlockingOutcome.success x)) ∧
    (xLockLoop ((TryOutcome.notAcquired, WaitOutcome.ctxDone msg) :: rest) =
      some (BlockingOutcome.ctxError msg)) ∧
    (sLockLoop ((TryOutcome.notAcquired, WaitOutcome.ctxDone msg) :: rest) =
      some (BlockingOutcome.ctxError msg)) ∧
    (xLockLoop ((TryOutcome.notAcquired, WaitOutcome.intervalElapsed) :: rest) =
      xLockLoop rest) ∧
    (sLockLoop ((TryOutcome.notAcquired, WaitOutcome.intervalElapsed) :: rest) =
      sLockLoop rest) ∧
    (BlockingOutcome.ctxError msg ≠ BlockingOutcome.storeError e) ∧
    (∀ y : Int, BlockingOutcome.ctxError msg ≠ BlockingOutcome.success y) := by
  refine ⟨rfl, rfl, rfl, rfl, rfl, rfl, rfl, rfl, by simp, by simp⟩

/-- Witness for C6 at concrete traces. -/
theorem blocking_wrapper_contract_witness :
    (xLockLoop [(TryOutcome.storeFailure "db down", WaitOutcome.intervalElapsed)] =
      some (BlockingOutcome.storeError "db down")) ∧
    (sLockLoop [(TryOutcome.notAcquired, WaitOutcome.ctxDone "context canceled")] =
      some (BlockingOutcome.ctxError "context canceled")) :=
  ⟨(blocking_wrapper_contract "db down" "context canceled" 7
      WaitOutcome.intervalElapsed []).1,
   (blocking_wrapper_contract "db down" "context canceled" 7
      WaitOutcome.intervalElapsed []).2.2.2.2.2.1⟩

/-- C8: a non-positive `IntervalDuration` is replaced by the fixed default
of 100 milliseconds (100 * 10^6 nanoseconds, the unit of `time.Duration`);
a positive one is used unchanged — in both `XLock` and `SLock`. -/
theorem retry_interval_default (d : Int) :
    (d ≤ 0 → xLockEffectiveInterval d = 100 * 1000000 ∧
      sLockEffectiveInterval d = 100 * 1000000) ∧
    (0 < d → xLockEffectiveInterval d = d ∧ sLockEffectiveInterval d = d) ∧
    DefaultRetryInterval = 100 * 1000000 := by
  refine ⟨fun h => ?_, fun h => ?_, rfl⟩
  · simp [xLockEffectiveInterval, sLockEffectiveInterval, DefaultRetryInterval, h]
  · have hneg : ¬ d ≤ 0 := by omega
    simp [xLockEffectiveInterval, sLockEffectiveInterval, hneg]

/-- Witness for C8 at concrete intervals. -/
theorem retry_interval_default_witness :
    xLockEffectiveInterval (-5) = 100 * 1000000 ∧ sLockEffectiveInterval 7 = 7 :=
  ⟨((retry_interval_default (-5)).1 (by decide)).1,
   ((retry_interval_default 7).2.1 (by decide)).2⟩

/-- C9: the stored `max_shared_locks` is set only at row creation — `-1`
when `TryXLock` creates the row, the caller's value when `TrySLock` does —
and no later `TryXLock`, `TrySLock` or `Unlock` modifies it; on an existing
row a `TrySLock` caller's supplied capacity affects neither the outcome nor
the stored state; in particular a `TryXLock`-created row (capacity `-1`)
admits any new shared claimant whenever no lease blocks it. -/
theorem maxSharedLocks_fixed_at_creation (row : LockRow) (lockID : String)
    (ttl maxP maxP2 now : Int) :
    ((tryXLock none lockID ttl now).1.map LockRow.maxSharedLocks = some (-1)) ∧
    ((trySLock none lockID ttl maxP now).1.map LockRow.maxSharedLocks = some maxP) ∧
    ((tryXLock (some row) lockID ttl now).1.map LockRow.maxSharedLocks =
      some row.maxSharedLocks) ∧
    ((trySLock (some row) lockID ttl maxP now).1.map LockRow.maxSharedLocks =
      some row.maxSharedLocks) ∧
    ((unlock (some row) lockID).1.map LockRow.maxSharedLocks =
      some row.maxSharedLocks) ∧
    (trySLock (some row) lockID ttl maxP now =
      trySLock (some row) lockID ttl maxP2 now) ∧
    (row.maxSharedLocks = -1 → xlockValid row now = false →
      ∀ entries, parseSharedLocks row.sharedLocks = Except.ok entries →
      (trySLock (some row) lockID ttl maxP now).2 =
        Except.ok { expiresAt := now + ttl, acquired := true }) := by
  refine ⟨rfl, rfl, ?_, ?_, ?_, rfl, ?_⟩
  · by_cases hx : xlockValid row now
    · simp [tryXLock, hx]
    · cases hb : row.sharedLocks with
      | wellFormed es =>
        by_cases hs : es.any (fun l => decide (now < l.expiresAt)) = true
        · simp [tryXLock, hx, hb, parseSharedLocks, hs]
        · simp only [Bool.not_eq_true] at hs
          simp [tryXLock, hx, hb, parseSharedLocks, hs]
      | emptyBytes => simp [tryXLock, hx, hb, parseSharedLocks]
      | corrupt => simp [tryXLock, hx, hb, parseSharedLocks]
  · by_cases hx : xlockValid row now
    · simp [trySLock, hx]
    · cases hb : row.sharedLocks with
      | wellFormed es =>
        simp only [trySLock, hx, hb, parseSharedLocks, Bool.false_eq_true, if_false]
        split <;> simp
      | emptyBytes =>
        simp only [trySLock, hx, hb, parseSharedLocks, Bool.false_eq_true, if_false]
        split <;> simp
      | corrupt => simp [trySLock, hx, hb, parseSharedLocks]
  · cases hb : row.sharedLocks with
    | wellFormed es =>
      simp only [unlock, hb, parseSharedLocks]
      split <;> split <;> simp
    | emptyBytes =>
      simp only [unlock, hb, parseSharedLocks]
      split <;> split <;> simp
    | corrupt => simp [unlock, hb, parseSharedLocks]
  · intro hmax hx entries hp
    by_cases ha : (entries.filter (fun l => decide (now < l.expiresAt))).any
        (fun l => l.lockID == lockID) = true
    · simp [trySLock, hx, hp, ha]
    · simp only [Bool.not_eq_true] at ha
      simp [trySLock, hx, hp, ha, hmax]

/-- Witness for C9: on `sampleRowCap1` (stored capacity 1) the supplied
capacity 99 neither unlocks extra admissions nor is stored, and the
unlimited conjunct applies to a `TryXLock`-created row. -/
theorem maxSharedLocks_fixed_at_creation_witness :
    ((trySLock (some sampleRowCap1) "b" 20 99 10).1.map LockRow.maxSharedLocks =
      some 1) ∧
    (trySLock (some sampleRowCap1) "b" 20 99 10 =
      trySLock (some sampleRowCap1) "b" 20 (-1) 10) ∧
    ((trySLock (some sampleRowX) "b" 20 7 50).2 =
      Except.ok { expiresAt := 70, acquired := true }) :=
  ⟨(maxSharedLocks_fixed_at_creation sampleRowCap1 "b" 20 99 (-1) 10).2.2.2.1,
   (maxSharedLocks_fixed_at_creation sampleRowCap1 "b" 20 99 (-1) 10).2.2.2.2.2.1,
   (maxSharedLocks_fixed_at_creation sampleRowX "b" 20 7 0 50).2.2.2.2.2.2
     rfl (by decide) [] rfl⟩

/-- An exclusive lease valid at a later time was valid at any earlier time. -/
theorem xlockValid_mono (row : LockRow) (now t : Int) (hle : now ≤ t)
    (h : xlockValid row t = true) : xlockValid row now = true := by
  simp only [xlockValid, Bool.and_eq_true] at h ⊢
  refine ⟨h.1, ?_⟩
  rcases hx : row.xExpiresAt with _ | e
  · rw [hx] at h
    exact absurd h.2 (by simp)
  · rw [hx] at h
    simp only [decide_eq_true_eq] at h ⊢
    omega

/-- The valid shared entries at a later time are a sublist of those at any
earlier time. -/
theorem validEntries_anti (row : LockRow) (now t : Int) (hle : now ≤ t) :
    List.Sublist (validEntries row t) (validEntries row now) := by
  apply List.monotone_filter_right
  intro a ha
  simp only [decide_eq_true_eq] at ha ⊢
  omega

/-- The invariant `strongInv` is preserved as time passes with no operation. -/
theorem strongInv_mono (s : Option LockRow) (now t : Int) (hle : now ≤ t)
    (h : strongInv s now) : strongInv s t := by
  rcases s with _ | row
  · trivial
  · obtain ⟨hwf, hco, hcap⟩ := h
    refine ⟨hwf, ?_, ?_⟩
    · intro hx
      have hnil := hco (xlockValid_mono row now t hle hx)
      have hsub := validEntries_anti row now t hle
      rw [hnil] at hsub
      exact List.sublist_nil.mp hsub
    · intro hmax
      have hold := hcap hmax
      have hsub := (validEntries_anti row now t hle).length_le
      omega

/-- Operation `tryXLock` preserves the strong invariant at its own time. -/
theorem strongInv_tryXLock (s : Option LockRow) (lockID : String) (ttl t : Int)
    (h : strongInv s t) : strongInv ((tryXLock s lockID ttl t).1) t := by
  rcases s with _ | row
  · exact ⟨⟨[], rfl⟩, fun _ => rfl, fun hmax => absurd rfl hmax⟩
  · simp only [tryXLock]
    split
    · exact h
    · split
      · exact h
      · next entries heq =>
        split
        · exact h
        · next hs =>
          obtain ⟨⟨es, hwf⟩, hco, hcap⟩ := h
          have hes : es = entries := by
            rw [hwf] at heq
            simpa [parseSharedLocks] using heq
          subst hes
          have hnil : validEntries row t = [] := by
            simp only [Bool.not_eq_true] at hs
            simp only [validEntries, entriesOf_parse row es heq]
            rw [List.filter_eq_nil_iff]
            exact List.any_eq_false.mp hs
          exact ⟨⟨es, hwf⟩, fun _ => hnil, hcap⟩

/-- Operation `trySLock` preserves the strong invariant at its own time, provided the
supplied capacity is `-1` or at least `1` (only used at row creation). -/
theorem strongInv_trySLock (s : Option LockRow) (lockID : String)
    (ttl maxS t : Int) (h : strongInv s t) (hgood : maxS = -1 ∨ 1 ≤ maxS) :
    strongInv ((trySLock s lockID ttl maxS t).1) t := by
  rcases s with _ | row
  · refine ⟨⟨_, rfl⟩, ?_, ?_⟩
    · intro hxv
      simp [xlockValid] at hxv
    · intro hmax
      rcases hgood with hg | hg
      · exact absurd hg hmax
      · have hlen := List.length_filter_le (fun l => decide (t < l.expiresAt))
          ([{ lockID := lockID, expiresAt := t + ttl }] : List SharedLockEntry)
        simp only [List.length_cons, List.length_nil] at hlen
        simp only [validEntries, entriesOf]
        omega
  · simp only [trySLock]
    split
    · exact h
    · next hx =>
      split
      · exact h
      · next entries heq =>
        split
        · exact h
        · next hcond =>
          obtain ⟨⟨es, hwf⟩, hco, hcap⟩ := h
          have hes : es = entries := by
            rw [hwf] at heq
            simpa [parseSharedLocks] using heq
          subst hes
          have hvrow : validEntries row t =
              es.filter (fun l => decide (t < l.expiresAt)) := by
            simp only [validEntries, entriesOf_parse row es heq]
          split
          · next halready =>
            refine ⟨⟨_, rfl⟩, fun hxv => absurd hxv hx, ?_⟩
            intro hmax
            have h1 := List.length_filter_le (fun l => decide (t < l.expiresAt))
              (renewFirst (es.filter (fun l => decide (t < l.expiresAt))) lockID (t + ttl))
            have h2 := renewFirst_length (es.filter (fun l => decide (t < l.expiresAt)))
              lockID (t + ttl)
            have h3 := hcap hmax
            rw [hvrow] at h3
            simp only [validEntries, entriesOf]
            omega
          · next halready =>
            refine ⟨⟨_, rfl⟩, fun hxv => absurd hxv hx, ?_⟩
            intro hmax
            have halready2 : (es.filter (fun l => decide (t < l.expiresAt))).any
                (fun l => l.lockID == lockID) = false := by
              simpa using halready
            push_neg at hcond
            have hlt := hcond halready2 hmax
            have h1 := List.length_filter_le (fun l => decide (t < l.expiresAt))
              ((es.filter (fun l => decide (t < l.expiresAt))) ++
                [{ lockID := lockID, expiresAt := t + ttl }])
            simp only [List.length_append, List.length_cons, List.length_nil] at h1
            simp only [validEntries, entriesOf]
            omega

/-- Operation `unlock` preserves the strong invariant at any time. -/
theorem strongInv_unlock (s : Option LockRow) (lockID : String) (t : Int)
    (h : strongInv s t) : strongInv ((unlock s lockID).1) t := by
  rcases s with _ | row
  · trivial
  · obtain ⟨⟨es, hwf⟩, hco, hcap⟩ := h
    have hp : parseSharedLocks row.sharedLocks = Except.ok es := by
      rw [hwf]
      rfl
    have heq := unlock_eq row lockID es hp
    rw [heq]
    have hvrow : validEntries row t = es.filter (fun l => decide (t < l.expiresAt)) := by
      simp only [validEntries, entriesOf_parse row es hp]
    by_cases hany : es.any (fun l => l.lockID == lockID) = true
    · by_cases hxm : (row.xlockID == some lockID) = true
      · simp only [hany, hxm, if_true]
        refine ⟨⟨_, rfl⟩, ?_, ?_⟩
        · intro hxv
          simp [xlockValid] at hxv
        · intro hmax
          have hsub : List.Sublist
              ((es.filter (fun l => l.lockID != lockID)).filter
                (fun l => decide (t < l.expiresAt)))
              (es.filter (fun l => decide (t < l.expiresAt))) :=
            (List.filter_sublist es).filter _
          have h3 := hcap hmax
          rw [hvrow] at h3
          have h4 := hsub.length_le
          simp only [validEntries, entriesOf]
          omega
      · simp only [hany, hxm, if_true, Bool.false_eq_true, if_false]
        refine ⟨⟨_, rfl⟩, ?_, ?_⟩
        · intro hxv
          have hnil := hco hxv
          rw [hvrow] at hnil
          have hall := List.filter_eq_nil_iff.mp hnil
          simp only [validEntries, entriesOf]
          rw [List.filter_eq_nil_iff]
          intro a ha
          exact hall a (List.mem_of_mem_filter ha)
        · intro hmax
          have hsub : List.Sublist
              ((es.filter (fun l => l.lockID != lockID)).filter
                (fun l => decide (t < l.expiresAt)))
              (es.filter (fun l => decide (t < l.expiresAt))) :=
            (List.filter_sublist es).filter _
          have h3 := hcap hmax
          rw [hvrow] at h3
          have h4 := hsub.length_le
          simp only [validEntries, entriesOf]
          omega
    · by_cases hxm : (row.xlockID == some lockID) = true
      · simp only [hany, hxm, if_true, Bool.false_eq_true, if_false]
        refine ⟨⟨es, hwf⟩, ?_, ?_⟩
        · intro hxv
          simp [xlockValid] at hxv
        · intro hmax
          exact hcap hmax
      · simp only [hany, hxm, Bool.false_eq_true, if_false]
        exact ⟨⟨es, hwf⟩, hco, hcap⟩

/-- One operation preserves the strong invariant at its own time. -/
theorem strongInv_applyOp (s : Option LockRow) (op : LockOp) (t : Int)
    (h : strongInv s t) (hg : goodOp op = true) :
    strongInv (applyOp s op t) t := by
  cases op with
  | tryX lockID ttl => exact strongInv_tryXLock s lockID ttl t h
  | tryS lockID ttl maxS =>
    have hm : maxS = -1 ∨ 1 ≤ maxS := by
      simp only [goodOp, Bool.or_eq_true, beq_iff_eq, decide_eq_true_eq] at hg
      exact hg
    exact strongInv_trySLock s lockID ttl maxS t h hm
  | unl lockID => exact strongInv_unlock s lockID t h

/-- Running a well-timed trace preserves the strong invariant. -/
theorem strongInv_runOps (tr : List (LockOp × Int)) (s : Option LockRow)
    (now t : Int) (hs : strongInv s now) (hnt : now ≤ t)
    (hchain : chainFrom now tr = true) (hgood : goodTrace tr = true)
    (hle : timesLE tr t = true) : strongInv (runOps s tr) t := by
  induction tr generalizing s now with
  | nil => exact strongInv_mono s now t hnt hs
  | cons p rest ih =>
    obtain ⟨op, τ⟩ := p
    simp only [chainFrom, Bool.and_eq_true, decide_eq_true_eq] at hchain
    simp only [goodTrace, List.all_cons, Bool.and_eq_true] at hgood
    simp only [timesLE, List.all_cons, Bool.and_eq_true, decide_eq_true_eq] at hle
    have h1 : strongInv s τ := strongInv_mono s now τ hchain.1 hs
    have h2 : strongInv (applyOp s op τ) τ := strongInv_applyOp s op τ h1 hgood.1
    exact ih (applyOp s op τ) τ h2 hle.1 hchain.2 hgood.2 hle.2

/-- The strong invariant implies the claimed row invariant. -/
theorem lockRowInvariant_of_strongInv (s : Option LockRow) (now : Int)
    (h : strongInv s now) : lockRowInvariant s now = true := by
  rcases s with _ | row
  · rfl
  · obtain ⟨hwf, hco, hcap⟩ := h
    simp only [lockRowInvariant, Bool.and_eq_true, Bool.or_eq_true,
      decide_eq_true_eq, beq_iff_eq]
    refine ⟨⟨?_, ?_⟩, ?_⟩
    · unfold validXHolders
      split
      · split <;> simp
      · simp
    · by_cases hx : xlockValid row now = true
      · right
        rw [hco hx]
        rfl
      · left
        simp only [Bool.not_eq_true] at hx
        simp [hx]
    · by_cases hm : row.maxSharedLocks = -1
      · left
        exact hm
      · right
        have h1 := hcap hm
        have h2 := (List.dedup_sublist ((validEntries row now).map
          (fun l => l.lockID))).length_le
        have h3 : ((validEntries row now).map (fun l => l.lockID)).length =
            (validEntries row now).length := List.length_map _ _
        omega

/-- C1 (amended): starting from an absent row, along every sequence of
`TryXLock`, `TrySLock` and `Unlock` operations with non-decreasing
timestamps — in which every `TrySLock` supplies a `MaxSharedLocks` of `-1`
or at least `1` — the row state at every transaction boundary has at most
one valid exclusive holder, no coexisting valid exclusive holder and valid
shared entry, and at most `max_shared_locks` distinct valid shared lock IDs
unless that stored value is `-1`. (Applied to every prefix of a trace this
covers every intermediate boundary; the original claim without the
capacity-parameter proviso is refuted by the counterexample.) -/
theorem lock_protocol_invariant (tr : List (LockOp × Int)) (n0 t : Int)
    (hchain : chainFrom n0 tr = true) (hgood : goodTrace tr = true)
    (hle : timesLE tr t = true) (hn0 : n0 ≤ t) :
    lockRowInvariant (runOps none tr) t = true :=
  lockRowInvariant_of_strongInv _ t
    (strongInv_runOps tr none n0 t trivial hn0 hchain hgood hle)

/-- C1 counterexample: the single-operation trace
`TrySLock(lockID := "a", ttl := 10, MaxSharedLocks := 0)` at time 0 is a
legal trace, yet the resulting row stores one valid shared entry against a
stored capacity of 0 (≠ -1), so the claimed invariant is violated at that
transaction boundary. -/
theorem lock_protocol_invariant_counterexample :
    chainFrom 0 [(LockOp.tryS "a" 10 0, 0)] = true ∧
    timesLE [(LockOp.tryS "a" 10 0, 0)] 0 = true ∧
    runOps none [(LockOp.tryS "a" 10 0, 0)] =
      some { xlockID := none, xExpiresAt := none,
             sharedLocks := SharedBlob.wellFormed [{ lockID := "a", expiresAt := 10 }],
             maxSharedLocks := 0 } ∧
    lockRowInvariant (runOps none [(LockOp.tryS "a" 10 0, 0)]) 0 = false := by
  refine ⟨rfl, rfl, rfl, by decide⟩

/-- Witness for C1 on a concrete three-operation trace. -/
theorem lock_protocol_invariant_witness :
    lockRowInvariant (runOps none
      [(LockOp.tryX "w" 30, 0), (LockOp.tryS "r" 10 2, 40), (LockOp.unl "r", 45)]) 50 = true :=
  lock_protocol_invariant
    [(LockOp.tryX "w" 30, 0), (LockOp.tryS "r" 10 2, 40), (LockOp.unl "r", 45)]
    0 50 (by decide) (by decide) (by decide) (by decide)

end Pglock
